import Mathlib

/-!
# StarList: the to-do list of `script.js`

A shallow embedding of the task store of `script.js` and of the commands that
act on it, followed by the properties of the specification that concern them.

Conventions of the embedding.

* A JavaScript string is a `JSString`, the sequence of its UTF-16 code units,
  so a string with a surrogate that has no partner is a string like any
  other; `js` writes the string of a literal.
* The global `tasks` is passed to every handler and returned by it; the global
  `currentFilter` is an argument of the render functions.
* What a handler reads from the page or the platform is an argument of its
  model: the value of the input field, the answer of `prompt` (`none` is
  Cancel) and of `confirm`, the reading of `Date.now()` and the result of
  `new Date().toISOString()`.
* `JSON.parse` and `JSON.stringify` are platform functions; they are modelled
  after ECMA-262 on the type `JSON` below.
-/

namespace StarList

/-! ## Strings -/

/-- A UTF-16 code unit. -/
abbrev CodeUnit := Fin 65536

/-- A JavaScript string: its code units. -/
abbrev JSString := List CodeUnit

/-- The code unit of a number below 65536. -/
def CodeUnit.ofNat (n : Nat) : CodeUnit := ⟨n % 65536, Nat.mod_lt _ (by decide)⟩

/-- The code unit of a character of the Basic Multilingual Plane. -/
def codeUnit (c : Char) : CodeUnit := CodeUnit.ofNat c.toNat

/-- The code units of a character: one, or a surrogate pair for a character
above the Basic Multilingual Plane. -/
def utf16 (c : Char) : JSString :=
  if c.toNat < 0x10000 then [CodeUnit.ofNat c.toNat]
  else
    [CodeUnit.ofNat (0xD800 + (c.toNat - 0x10000) / 0x400),
     CodeUnit.ofNat (0xDC00 + (c.toNat - 0x10000) % 0x400)]

/-- The JavaScript string of a literal. -/
def js (s : String) : JSString := s.data.flatMap utf16

/-- The code units `String.prototype.trim` removes: the WhiteSpace and
LineTerminator productions of ECMA-262. -/
def isTrimSpace (c : CodeUnit) : Bool :=
  let n := c.val
  n = 0x09 || n = 0x0A || n = 0x0B || n = 0x0C || n = 0x0D || n = 0x20 ||
  n = 0xA0 || n = 0x1680 || (0x2000 ≤ n && n ≤ 0x200A) || n = 0x2028 ||
  n = 0x2029 || n = 0x202F || n = 0x205F || n = 0x3000 || n = 0xFEFF

/-- The method `str.trim()`: leading and trailing white space removed. -/
def trim (str : JSString) : JSString :=
  ((str.dropWhile isTrimSpace).reverse.dropWhile isTrimSpace).reverse

/-- The call `str.replace(/c/g, rep)` for a one-character pattern `c` and a
replacement text without `$`: a left-to-right scan that replaces every
occurrence. -/
def replaceAll (c : CodeUnit) (rep : JSString) : JSString → JSString
  | [] => []
  | x :: xs => if x = c then rep ++ replaceAll c rep xs else x :: replaceAll c rep xs

/-- The function `escapeHtml(str)`: three global replacements, one after the other. -/
def escapeHtml (str : JSString) : JSString :=
  replaceAll (codeUnit '>') (js "&gt;")
    (replaceAll (codeUnit '<') (js "&lt;")
      (replaceAll (codeUnit '&') (js "&amp;") str))

/-- The text the specification has `escapeHtml` write for one character: an
entity for `&`, `<` and `>`, the character itself otherwise. -/
def escapeChar (c : CodeUnit) : JSString :=
  if c = codeUnit '&' then js "&amp;"
  else if c = codeUnit '<' then js "&lt;"
  else if c = codeUnit '>' then js "&gt;"
  else [c]

/-- The character-by-character substitution of a text, as the specification
words it; `escapeHtml` is compared with it below. -/
def substitute : JSString → JSString
  | [] => []
  | c :: cs => escapeChar c ++ substitute cs

/-! ## The task store -/

/-- A task record, with its four fields in the order `createTask` writes them. -/
structure Task where
  id : JSString
  text : JSString
  completed : Bool
  createdAt : JSString
deriving DecidableEq, Repr

/-- The function `createTask(text)`; `now` is the reading of `Date.now()` and `iso` the
result of `new Date().toISOString()`. -/
def createTask (text : JSString) (now : Int) (iso : JSString) : Task :=
  { id := js (toString now)
    text := trim text
    completed := false
    createdAt := iso }

/-- The function `handleAddTask()`; `input` is `inputEl.value`. -/
def handleAddTask (input : JSString) (now : Int) (iso : JSString) (tasks : List Task) :
    List Task :=
  let value := trim input
  if value = [] then tasks
  else createTask value now iso :: tasks

/-- The function `toggleTaskCompleted(id)`. -/
def toggleTaskCompleted (id : JSString) (tasks : List Task) : List Task :=
  tasks.map fun task =>
    if task.id = id then { task with completed := !task.completed } else task

/-- The function `editTask(id)`; `answer` is what `prompt` returns, `none` for Cancel. -/
def editTask (id : JSString) (answer : Option JSString) (tasks : List Task) : List Task :=
  match tasks.find? (fun t => t.id = id) with
  | none => tasks
  | some _ =>
    match answer with
    | none => tasks
    | some newText =>
      let trimmed := trim newText
      if trimmed = [] then tasks
      else tasks.map fun t => if t.id = id then { t with text := trimmed } else t

/-- The function `deleteTask(id)`; `ok` is what `confirm` returns. -/
def deleteTask (id : JSString) (ok : Bool) (tasks : List Task) : List Task :=
  match tasks.find? (fun t => t.id = id) with
  | none => tasks
  | some _ =>
    if !ok then tasks
    else tasks.filter fun t => t.id ≠ id

/-- The click handler of the clear-completed button; `ok` is what `confirm`
returns. -/
def clearCompleted (ok : Bool) (tasks : List Task) : List Task :=
  let hasCompleted := tasks.any fun t => t.completed
  if !hasCompleted then tasks
  else if ok then tasks.filter fun t => !t.completed
  else tasks

/-- The commands `attachEventListeners` wires to the page, each with what it
reads from the user and the platform. -/
inductive Command where
  | add (input : JSString) (now : Int) (iso : JSString)
  | toggle (id : JSString)
  | edit (id : JSString) (answer : Option JSString)
  | delete (id : JSString) (ok : Bool)
  | clearCompleted (ok : Bool)

/-- The store after a command. -/
def Command.run : Command → List Task → List Task
  | .add input now iso, tasks => handleAddTask input now iso tasks
  | .toggle id, tasks => toggleTaskCompleted id tasks
  | .edit id answer, tasks => editTask id answer tasks
  | .delete id ok, tasks => deleteTask id ok tasks
  | .clearCompleted ok, tasks => StarList.clearCompleted ok tasks

/-! ## JSON

The values `JSON.parse` returns and `JSON.stringify` takes. A number keeps the
text of its literal: no property below reads a number's value. An object is
the list of its members in the order JavaScript lists them: the keys that are
array indices first, in ascending order, then the other keys in the order
they were created. -/

/-- A JSON value. -/
inductive JSON where
  | null
  | bool (b : Bool)
  | num (literal : JSString)
  | str (s : JSString)
  | arr (elems : List JSON)
  | obj (members : List (JSString × JSON))
deriving Repr

/-- The white space of the JSON grammar. -/
def isJsonSpace (c : CodeUnit) : Bool :=
  c = codeUnit ' ' || c = codeUnit '\t' || c = codeUnit '\n' || c = codeUnit '\r'

/-- Skip JSON white space. -/
def skipWs (cs : JSString) : JSString := cs.dropWhile isJsonSpace

/-- The lower-case hexadecimal digit of `n < 16`. -/
def hexDigit (n : Nat) : CodeUnit :=
  if n < 10 then CodeUnit.ofNat (48 + n) else CodeUnit.ofNat (87 + n)

/-- The abstract operation `UnicodeEscape`: `\u` and the four lower-case
hexadecimal digits of the code unit. -/
def unicodeEscape (c : CodeUnit) : JSString :=
  [codeUnit '\\', codeUnit 'u', hexDigit (c.val / 4096), hexDigit (c.val / 256 % 16),
    hexDigit (c.val / 16 % 16), hexDigit (c.val % 16)]

/-- Whether `c` is a leading surrogate. -/
def isLead (c : CodeUnit) : Bool := 0xD800 ≤ c.val && c.val ≤ 0xDBFF

/-- Whether `c` is a trailing surrogate. -/
def isTrail (c : CodeUnit) : Bool := 0xDC00 ≤ c.val && c.val ≤ 0xDFFF

/-- Whether the text starts with a trailing surrogate. -/
def startsWithTrail (cs : JSString) : Bool :=
  match cs with
  | [] => false
  | d :: _ => isTrail d

/-- One code unit of `QuoteJSONString` that is not a surrogate: the quote, the
backslash and the control characters are escaped, every other code unit
stands for itself. -/
def quoteUnit (c : CodeUnit) : JSString :=
  if c = codeUnit '"' then [codeUnit '\\', codeUnit '"']
  else if c = codeUnit '\\' then [codeUnit '\\', codeUnit '\\']
  else if c = codeUnit '\x08' then [codeUnit '\\', codeUnit 'b']
  else if c = codeUnit '\x0c' then [codeUnit '\\', codeUnit 'f']
  else if c = codeUnit '\n' then [codeUnit '\\', codeUnit 'n']
  else if c = codeUnit '\r' then [codeUnit '\\', codeUnit 'r']
  else if c = codeUnit '\t' then [codeUnit '\\', codeUnit 't']
  else if c.val < 0x20 then unicodeEscape c
  else [c]

/-- The text `QuoteJSONString` writes between the quotes. A leading surrogate
that a trailing surrogate follows is written as it is, and so is that
trailing surrogate (`paired` tells that the head is one); any other surrogate
is written as a `\u` escape. -/
def quoteUnits : Bool → JSString → JSString
  | _, [] => []
  | paired, c :: rest =>
    if paired then c :: quoteUnits false rest
    else if isLead c then
      if startsWithTrail rest then c :: quoteUnits true rest
      else unicodeEscape c ++ quoteUnits false rest
    else if isTrail c then unicodeEscape c ++ quoteUnits false rest
    else quoteUnit c ++ quoteUnits false rest

/-- The abstract operation `QuoteJSONString`. -/
def quote (s : JSString) : JSString :=
  codeUnit '"' :: quoteUnits false s ++ [codeUnit '"']

mutual
/-- The serialization of a value, without indentation. -/
def stringifyValue : JSON → JSString
  | .null => js "null"
  | .bool b => if b then js "true" else js "false"
  | .num literal => literal
  | .str s => quote s
  | .arr elems => codeUnit '[' :: stringifyElems elems ++ [codeUnit ']']
  | .obj members => codeUnit '{' :: stringifyMembers members ++ [codeUnit '}']
/-- The elements of an array, separated by commas. -/
def stringifyElems : List JSON → JSString
  | [] => []
  | x :: xs =>
    match xs with
    | [] => stringifyValue x
    | _ :: _ => stringifyValue x ++ codeUnit ',' :: stringifyElems xs
/-- The members of an object, separated by commas. -/
def stringifyMembers : List (JSString × JSON) → JSString
  | [] => []
  | (k, v) :: kvs =>
    match kvs with
    | [] => quote k ++ codeUnit ':' :: stringifyValue v
    | _ :: _ => quote k ++ codeUnit ':' :: stringifyValue v ++ codeUnit ',' :: stringifyMembers kvs
end

/-- The function `JSON.stringify(value)`. -/
def JSON.stringify (value : JSON) : JSString := stringifyValue value

/-- The value of a hexadecimal digit. -/
def hexValue (c : CodeUnit) : Option Nat :=
  let n := c.val
  if 48 ≤ n ∧ n ≤ 57 then some (n - 48)
  else if 97 ≤ n ∧ n ≤ 102 then some (n - 87)
  else if 65 ≤ n ∧ n ≤ 70 then some (n - 55)
  else none

/-- Where the reader of a string stands: between items, after a backslash, or
inside the four hexadecimal digits of a `\u` escape, `count` of them read with
the value `value`. -/
inductive Mode where
  | normal
  | escape
  | hex (count : Nat) (value : Nat)

/-- The text of a JSON string after its opening quote, up to the closing
quote, read one code unit at a time. The string read so far is `acc`,
reversed. A `\u` escape gives the code unit its four digits denote, a
surrogate included. The result is the string and the input after the closing
quote. -/
def parseStringBody : JSString → Mode → JSString → Option (JSString × JSString)
  | [], _, _ => none
  | c :: cs, Mode.normal, acc =>
    if c = codeUnit '"' then some (acc.reverse, cs)
    else if c = codeUnit '\\' then parseStringBody cs Mode.escape acc
    else if c.val < 0x20 then none
    else parseStringBody cs Mode.normal (c :: acc)
  | c :: cs, Mode.escape, acc =>
    if c = codeUnit '"' then parseStringBody cs Mode.normal (codeUnit '"' :: acc)
    else if c = codeUnit '\\' then parseStringBody cs Mode.normal (codeUnit '\\' :: acc)
    else if c = codeUnit '/' then parseStringBody cs Mode.normal (codeUnit '/' :: acc)
    else if c = codeUnit 'b' then parseStringBody cs Mode.normal (codeUnit '\x08' :: acc)
    else if c = codeUnit 'f' then parseStringBody cs Mode.normal (codeUnit '\x0c' :: acc)
    else if c = codeUnit 'n' then parseStringBody cs Mode.normal (codeUnit '\n' :: acc)
    else if c = codeUnit 'r' then parseStringBody cs Mode.normal (codeUnit '\r' :: acc)
    else if c = codeUnit 't' then parseStringBody cs Mode.normal (codeUnit '\t' :: acc)
    else if c = codeUnit 'u' then parseStringBody cs (Mode.hex 0 0) acc
    else none
  | c :: cs, Mode.hex count value, acc =>
    match hexValue c with
    | none => none
    | some d =>
      if count < 3 then parseStringBody cs (Mode.hex (count + 1) (value * 16 + d)) acc
      else parseStringBody cs Mode.normal (CodeUnit.ofNat (value * 16 + d) :: acc)

/-- Whether `c` is a decimal digit. -/
def isDigit (c : CodeUnit) : Bool := 48 ≤ c.val && c.val ≤ 57

/-- The digits that must follow a fraction point or an exponent mark: at
least one. -/
def parseDigits1 (cs : JSString) : Option (JSString × JSString) :=
  match cs.span isDigit with
  | ([], _) => none
  | (ds, rest) => some (ds, rest)

/-- The integer part of a number: `0`, or a non-zero digit and more digits. -/
def parseInt (cs : JSString) : Option (JSString × JSString) :=
  match cs with
  | [] => none
  | c :: rest =>
    if c = codeUnit '0' then some ([c], rest)
    else if isDigit c then some (c :: (rest.span isDigit).1, (rest.span isDigit).2)
    else none

/-- The optional fraction of a number. -/
def parseFrac (cs : JSString) : Option (JSString × JSString) :=
  match cs with
  | [] => some ([], cs)
  | p :: rest =>
    if p = codeUnit '.' then
      match parseDigits1 rest with
      | none => none
      | some (ds, rest1) => some (p :: ds, rest1)
    else some ([], cs)

/-- The optional exponent of a number. -/
def parseExp (cs : JSString) : Option (JSString × JSString) :=
  match cs with
  | [] => some ([], cs)
  | e :: rest =>
    if e = codeUnit 'e' ∨ e = codeUnit 'E' then
      match rest with
      | [] => none
      | s :: rest1 =>
        if s = codeUnit '+' ∨ s = codeUnit '-' then
          match parseDigits1 rest1 with
          | none => none
          | some (ds, rest2) => some (e :: s :: ds, rest2)
        else
          match parseDigits1 rest with
          | none => none
          | some (ds, rest2) => some (e :: ds, rest2)
    else some ([], cs)

/-- The optional minus sign of a number. -/
def parseSign (cs : JSString) : JSString × JSString :=
  match cs with
  | [] => ([], cs)
  | m :: rest => if m = codeUnit '-' then ([m], rest) else ([], cs)

/-- A JSON number: its literal and the input after it. -/
def parseNumber (cs : JSString) : Option (JSString × JSString) :=
  let signed := parseSign cs
  match parseInt signed.2 with
  | none => none
  | some (int, rest1) =>
    match parseFrac rest1 with
    | none => none
    | some (frac, rest2) =>
      match parseExp rest2 with
      | none => none
      | some (exp, rest3) => some (signed.1 ++ int ++ frac ++ exp, rest3)

/-- The word `w` at the head of the input: the input after it. -/
def parseWord (w : JSString) (cs : JSString) : Option JSString :=
  if w.isPrefixOf cs then some (cs.drop w.length) else none

/-- The number a text of decimal digits denotes, after the digits `value`. -/
def decimalValue (value : Nat) : JSString → Nat
  | [] => value
  | c :: cs => decimalValue (value * 10 + (c.val - 48)) cs

/-- The array index a key is, if it is one: the canonical decimal text of a
number below `2 ^ 32 - 1`. -/
def arrayIndex (k : JSString) : Option Nat :=
  match k with
  | [] => none
  | c :: rest =>
    if (c :: rest).all isDigit ∧ (c ≠ codeUnit '0' ∨ rest = []) ∧
        decimalValue 0 (c :: rest) < 4294967295 then
      some (decimalValue 0 (c :: rest))
    else none

/-- Whether a new key `k` is listed before the key `k1` of an object: an array
index comes before a larger array index and before every other key. -/
def listedBefore (k k1 : JSString) : Bool :=
  match arrayIndex k, arrayIndex k1 with
  | some i, some j => i < j
  | some _, none => true
  | none, _ => false

/-- Set the member `k` of an object under construction: a key already there
keeps its place and takes the new value; a new key that is an array index
goes to its place among the array indices, any other new key to the end. -/
def setMember (k : JSString) (v : JSON) : List (JSString × JSON) → List (JSString × JSON)
  | [] => [(k, v)]
  | (k1, v1) :: rest =>
    if k1 = k then (k, v) :: rest
    else if listedBefore k k1 then (k, v) :: (k1, v1) :: rest
    else (k1, v1) :: setMember k v rest

mutual
/-- A JSON value and the input after it. The first argument bounds the depth
of the recursion; `JSON.parse` starts it above the length of the text. -/
def parseValue : Nat → JSString → Option (JSON × JSString)
  | 0, _ => none
  | fuel + 1, cs =>
    match skipWs cs with
    | [] => none
    | c :: rest =>
      if c = codeUnit '{' then
        match skipWs rest with
        | [] => none
        | d :: rest1 =>
          if d = codeUnit '}' then some (JSON.obj [], rest1) else parseMembers fuel [] rest
      else if c = codeUnit '[' then
        match skipWs rest with
        | [] => none
        | d :: rest1 =>
          if d = codeUnit ']' then some (JSON.arr [], rest1) else parseElems fuel [] rest
      else if c = codeUnit '"' then
        match parseStringBody rest Mode.normal [] with
        | none => none
        | some (s, rest1) => some (JSON.str s, rest1)
      else if c = codeUnit 't' then
        match parseWord (js "rue") rest with
        | none => none
        | some rest1 => some (JSON.bool true, rest1)
      else if c = codeUnit 'f' then
        match parseWord (js "alse") rest with
        | none => none
        | some rest1 => some (JSON.bool false, rest1)
      else if c = codeUnit 'n' then
        match parseWord (js "ull") rest with
        | none => none
        | some rest1 => some (JSON.null, rest1)
      else
        match parseNumber (c :: rest) with
        | none => none
        | some (literal, rest1) => some (JSON.num literal, rest1)
/-- The elements of an array after `[`, up to `]`; `acc` holds the elements
read so far. -/
def parseElems : Nat → List JSON → JSString → Option (JSON × JSString)
  | 0, _, _ => none
  | fuel + 1, acc, cs =>
    match parseValue fuel cs with
    | none => none
    | some (v, rest) =>
      match skipWs rest with
      | [] => none
      | d :: rest1 =>
        if d = codeUnit ',' then parseElems fuel (acc ++ [v]) rest1
        else if d = codeUnit ']' then some (JSON.arr (acc ++ [v]), rest1)
        else none
/-- The members of an object after `{`, up to `}`; `acc` holds the members
read so far. -/
def parseMembers : Nat → List (JSString × JSON) → JSString → Option (JSON × JSString)
  | 0, _, _ => none
  | fuel + 1, acc, cs =>
    match skipWs cs with
    | [] => none
    | q :: rest =>
      if q = codeUnit '"' then
        match parseStringBody rest Mode.normal [] with
        | none => none
        | some (k, rest1) =>
          match skipWs rest1 with
          | [] => none
          | colon :: rest2 =>
            if colon = codeUnit ':' then
              match parseValue fuel rest2 with
              | none => none
              | some (v, rest3) =>
                match skipWs rest3 with
                | [] => none
                | d :: rest4 =>
                  if d = codeUnit ',' then parseMembers fuel (setMember k v acc) rest4
                  else if d = codeUnit '}' then some (JSON.obj (setMember k v acc), rest4)
                  else none
            else none
      else none
end

/-- The function `JSON.parse(text)`; `none` is the SyntaxError it throws. -/
def JSON.parse (text : JSString) : Option JSON :=
  match parseValue (text.length + 1) text with
  | none => none
  | some (v, rest) => if skipWs rest = [] then some v else none

/-! ## Persistence -/

/-- The value of a task record. -/
def Task.toJSON (t : Task) : JSON :=
  JSON.obj
    [(js "id", JSON.str t.id), (js "text", JSON.str t.text),
     (js "completed", JSON.bool t.completed), (js "createdAt", JSON.str t.createdAt)]

/-- The value of a store that is a sequence of task records. -/
def storeValue (tasks : List Task) : JSON := JSON.arr (tasks.map Task.toJSON)

/-- The function `saveTasks()`: the text it writes to the slot `"tasks"`. -/
def saveTasks (tasks : List Task) : JSString := JSON.stringify (storeValue tasks)

/-- The start of the `DOMContentLoaded` handler: the value of `tasks` once the
slot has been read; `saved` is what `localStorage.getItem("tasks")` returns,
`none` for `null`. -/
def load (saved : Option JSString) : JSON :=
  match saved with
  | none => JSON.arr []
  | some text =>
    if text = [] then JSON.arr []
    else
      match JSON.parse text with
      | some value => value
      | none => JSON.arr []

/-! ## Rendering -/

/-- The constant `filtered` of `renderTasks`. -/
def filtered (tasks : List Task) (currentFilter : JSString) : List Task :=
  tasks.filter fun task =>
    if currentFilter = js "active" then !task.completed
    else if currentFilter = js "completed" then task.completed
    else true

/-- A child of the `#task-list` element. -/
inductive ListItem where
  | emptyState
  | taskItem (id : JSString) (completed : Bool) (textHtml : JSString) (createdAt : JSString)
deriving DecidableEq, Repr

/-- The function `updateStats()`: the text of `#task-count`. -/
def updateStats (tasks : List Task) : JSString :=
  let total := tasks.length
  let remaining := (tasks.filter fun t => !t.completed).length
  if total = 0 then js "No tasks"
  else if remaining = 0 then js (toString total) ++ js " tasks • All done 🎯"
  else js (toString remaining) ++ js " of " ++ js (toString total) ++ js " tasks remaining"

/-- What `renderTasks()` leaves on the page. -/
structure Page where
  taskList : List ListItem
  taskCount : JSString
deriving DecidableEq, Repr

/-- The function `renderTasks()`. The row of a task carries its id, its completed flag, its
escaped text and its creation time (shown through `formatTime`). -/
def renderTasks (tasks : List Task) (currentFilter : JSString) : Page :=
  let shown := filtered tasks currentFilter
  { taskList :=
      if shown.length = 0 then [ListItem.emptyState]
      else shown.map fun task =>
        ListItem.taskItem task.id task.completed (escapeHtml task.text) task.createdAt
    taskCount := updateStats tasks }

/-! ## Lemmas on strings -/

theorem trim_eq (cs : JSString) :
    trim cs = (cs.dropWhile isTrimSpace).rdropWhile isTrimSpace := rfl

/-- Trimming a trimmed text changes nothing. -/
theorem trim_idem (cs : JSString) : trim (trim cs) = trim cs := by
  have hfront : (trim cs).dropWhile isTrimSpace = trim cs := by
    rw [List.dropWhile_eq_self_iff]
    intro hl
    obtain ⟨u, hu⟩ : trim cs <+: cs.dropWhile isTrimSpace := by
      rw [trim_eq]; exact List.rdropWhile_prefix _ _
    have hpos : 0 < (cs.dropWhile isTrimSpace).length := by
      rw [← hu, List.length_append]; omega
    have hhead := List.dropWhile_get_zero_not isTrimSpace cs hpos
    have hsame : (trim cs).get ⟨0, hl⟩ = (cs.dropWhile isTrimSpace).get ⟨0, hpos⟩ := by
      simp only [List.get_eq_getElem, ← hu]
      rw [List.getElem_append_left]
    rw [hsame]
    exact hhead
  have hback : (trim cs).rdropWhile isTrimSpace = trim cs := by
    rw [trim_eq]; exact List.rdropWhile_idempotent _ _
  rw [trim_eq (trim cs), hfront, hback]

theorem replaceAll_append (c : CodeUnit) (rep xs ys : JSString) :
    replaceAll c rep (xs ++ ys) = replaceAll c rep xs ++ replaceAll c rep ys := by
  induction xs with
  | nil => rfl
  | cons x xs ih =>
    simp only [List.cons_append, replaceAll]
    split <;> simp [ih]

theorem replaceAll_cons_eq (c : CodeUnit) (rep xs : JSString) :
    replaceAll c rep (c :: xs) = rep ++ replaceAll c rep xs := by
  simp [replaceAll]

theorem replaceAll_cons_ne (c x : CodeUnit) (rep xs : JSString) (h : x ≠ c) :
    replaceAll c rep (x :: xs) = x :: replaceAll c rep xs := by
  simp [replaceAll, h]

theorem replaceAll_substitute (cs : JSString) :
    replaceAll (codeUnit '>') (js "&gt;")
      (replaceAll (codeUnit '<') (js "&lt;") (replaceAll (codeUnit '&') (js "&amp;") cs)) =
        substitute cs := by
  have amp_lt : replaceAll (codeUnit '<') (js "&lt;") (js "&amp;") = js "&amp;" := by decide
  have amp_gt : replaceAll (codeUnit '>') (js "&gt;") (js "&amp;") = js "&amp;" := by decide
  have lt_gt : replaceAll (codeUnit '>') (js "&gt;") (js "&lt;") = js "&lt;" := by decide
  have hal : codeUnit '&' ≠ codeUnit '<' := by decide
  have hag : codeUnit '&' ≠ codeUnit '>' := by decide
  have hlg : codeUnit '<' ≠ codeUnit '>' := by decide
  induction cs with
  | nil => rfl
  | cons x xs ih =>
    by_cases h1 : x = codeUnit '&'
    · subst h1
      rw [replaceAll_cons_eq, replaceAll_append, replaceAll_append, amp_lt, amp_gt, ih]
      simp [substitute, escapeChar]
    · by_cases h2 : x = codeUnit '<'
      · subst h2
        rw [replaceAll_cons_ne _ _ _ _ h1, replaceAll_cons_eq, replaceAll_append, lt_gt, ih]
        simp [substitute, escapeChar, h1]
      · by_cases h3 : x = codeUnit '>'
        · subst h3
          rw [replaceAll_cons_ne _ _ _ _ h1, replaceAll_cons_ne _ _ _ _ h2,
            replaceAll_cons_eq, ih]
          simp [substitute, escapeChar, h1, h2]
        · rw [replaceAll_cons_ne _ _ _ _ h1, replaceAll_cons_ne _ _ _ _ h2,
            replaceAll_cons_ne _ _ _ _ h3, ih]
          simp [substitute, escapeChar, h1, h2, h3]

theorem not_mem_substitute (cs : JSString) (c : CodeUnit)
    (hc : c = codeUnit '<' ∨ c = codeUnit '>') : c ∉ substitute cs := by
  induction cs with
  | nil => simp [substitute]
  | cons x xs ih =>
    simp only [substitute, List.mem_append, not_or]
    refine ⟨?_, ih⟩
    unfold escapeChar
    split_ifs with h1 h2 h3
    · rcases hc with rfl | rfl <;> decide
    · rcases hc with rfl | rfl <;> decide
    · rcases hc with rfl | rfl <;> decide
    · simp only [List.mem_singleton]
      rcases hc with rfl | rfl
      · exact fun h => h2 h.symm
      · exact fun h => h3 h.symm

/-- C5: `escapeHtml(s)` is the character-by-character substitution of `s`
that writes `&amp;` for `&`, `&lt;` for `<`, `&gt;` for `>` and every other
character as it is, so the three replacements in a row never escape an entity
again; the result holds no `<` and no `>`. -/
theorem escapeHtml_substitution (s : JSString) :
    escapeHtml s = substitute s ∧
    (∀ c : CodeUnit, escapeChar c =
      if c = codeUnit '&' then js "&amp;" else if c = codeUnit '<' then js "&lt;"
      else if c = codeUnit '>' then js "&gt;" else [c]) ∧
    codeUnit '<' ∉ escapeHtml s ∧ codeUnit '>' ∉ escapeHtml s := by
  have h : escapeHtml s = substitute s := replaceAll_substitute s
  refine ⟨h, fun c => rfl, ?_, ?_⟩
  · rw [h]; exact not_mem_substitute _ _ (Or.inl rfl)
  · rw [h]; exact not_mem_substitute _ _ (Or.inr rfl)

/-- An instance of C5: markup in a task text, and a text that already holds an
entity. -/
theorem escapeHtml_substitution_witness :
    escapeHtml (js "<script>alert(1 & 2)</script>") =
      js "&lt;script&gt;alert(1 &amp; 2)&lt;/script&gt;" ∧
    escapeHtml (js "&lt;") = js "&amp;lt;" :=
  ⟨(escapeHtml_substitution _).1.trans (by decide),
   (escapeHtml_substitution _).1.trans (by decide)⟩

/-! ## Rendering -/

/-- C6: the tasks `renderTasks` shows are the tasks of the store the filter
selects, in the order of the store: the tasks that are not completed for
`"active"`, the completed ones for `"completed"`, the whole store for `"all"`;
the list on the page has one row for each of them, in that order, or the
empty-state row when there is none. -/
theorem renderTasks_shows_filtered (tasks : List Task) :
    filtered tasks (js "active") = tasks.filter (fun t => t.completed = false) ∧
    filtered tasks (js "completed") = tasks.filter (fun t => t.completed = true) ∧
    filtered tasks (js "all") = tasks ∧
    ∀ currentFilter : JSString,
      List.Sublist (filtered tasks currentFilter) tasks ∧
      (renderTasks tasks currentFilter).taskList =
        if filtered tasks currentFilter = [] then [ListItem.emptyState]
        else (filtered tasks currentFilter).map fun t =>
          ListItem.taskItem t.id t.completed (escapeHtml t.text) t.createdAt := by
  refine ⟨?_, ?_, ?_, fun currentFilter => ⟨?_, ?_⟩⟩
  · unfold filtered
    congr 1
    funext t
    cases t.completed <;> simp
  · unfold filtered
    congr 1
    funext t
    have h : js "completed" ≠ js "active" := by decide
    cases t.completed <;> simp [h]
  · unfold filtered
    have h1 : js "all" ≠ js "active" := by decide
    have h2 : js "all" ≠ js "completed" := by decide
    simp [h1, h2]
  · exact List.filter_sublist _
  · simp only [renderTasks, List.length_eq_zero]

/-- The example of C6: the store `[A, B, C]` with only `B` completed. -/
theorem renderTasks_shows_filtered_witness :
    filtered
        [⟨js "3", js "A", false, js "2024-01-01T00:02:00.000Z"⟩,
         ⟨js "2", js "B", true, js "2024-01-01T00:01:00.000Z"⟩,
         ⟨js "1", js "C", false, js "2024-01-01T00:00:00.000Z"⟩] (js "active") =
      [⟨js "3", js "A", false, js "2024-01-01T00:02:00.000Z"⟩,
       ⟨js "1", js "C", false, js "2024-01-01T00:00:00.000Z"⟩] ∧
    filtered
        [⟨js "3", js "A", false, js "2024-01-01T00:02:00.000Z"⟩,
         ⟨js "2", js "B", true, js "2024-01-01T00:01:00.000Z"⟩,
         ⟨js "1", js "C", false, js "2024-01-01T00:00:00.000Z"⟩] (js "completed") =
      [⟨js "2", js "B", true, js "2024-01-01T00:01:00.000Z"⟩] ∧
    filtered
        [⟨js "3", js "A", false, js "2024-01-01T00:02:00.000Z"⟩,
         ⟨js "2", js "B", true, js "2024-01-01T00:01:00.000Z"⟩,
         ⟨js "1", js "C", false, js "2024-01-01T00:00:00.000Z"⟩] (js "all") =
      [⟨js "3", js "A", false, js "2024-01-01T00:02:00.000Z"⟩,
       ⟨js "2", js "B", true, js "2024-01-01T00:01:00.000Z"⟩,
       ⟨js "1", js "C", false, js "2024-01-01T00:00:00.000Z"⟩] :=
  ⟨(renderTasks_shows_filtered _).1.trans (by decide),
   (renderTasks_shows_filtered _).2.1.trans (by decide),
   (renderTasks_shows_filtered _).2.2.1⟩

/-- C7: the summary `renderTasks` writes does not depend on the filter. With
`total` the number of tasks of the store and `remaining` the number of those
not completed, it is `No tasks` when `total = 0`, the total followed by
` tasks • All done 🎯` when `total > 0` and `remaining = 0`, and
`<remaining> of <total> tasks remaining` otherwise. -/
theorem updateStats_summary (tasks : List Task) (currentFilter : JSString) :
    (renderTasks tasks currentFilter).taskCount = updateStats tasks ∧
    updateStats tasks =
      if tasks.length = 0 then js "No tasks"
      else if tasks.countP (fun t => t.completed = false) = 0 then
        js (toString tasks.length) ++ js " tasks • All done 🎯"
      else
        js (toString (tasks.countP (fun t => t.completed = false))) ++ js " of " ++
          js (toString tasks.length) ++ js " tasks remaining" := by
  refine ⟨rfl, ?_⟩
  have h : (tasks.filter fun t => !t.completed).length
      = tasks.countP (fun t => t.completed = false) := by
    rw [List.countP_eq_length_filter]
    congr 2
    funext t
    cases t.completed <;> simp
  simp only [updateStats, h]

/-- The examples of C7: three tasks with one not completed, no task, and two
tasks both completed. -/
theorem updateStats_summary_witness :
    (renderTasks
        [⟨js "3", js "A", true, js "2024-01-01T00:02:00.000Z"⟩,
         ⟨js "2", js "B", false, js "2024-01-01T00:01:00.000Z"⟩,
         ⟨js "1", js "C", true, js "2024-01-01T00:00:00.000Z"⟩] (js "completed")).taskCount =
      js "1 of 3 tasks remaining" ∧
    (renderTasks [] (js "active")).taskCount = js "No tasks" ∧
    (renderTasks
        [⟨js "2", js "B", true, js "2024-01-01T00:01:00.000Z"⟩,
         ⟨js "1", js "C", true, js "2024-01-01T00:00:00.000Z"⟩] (js "all")).taskCount =
      js "2 tasks • All done 🎯" :=
  ⟨(updateStats_summary _ _).1.trans
     ((updateStats_summary _ (js "completed")).2.trans (by decide)),
   (updateStats_summary _ _).1.trans
     ((updateStats_summary _ (js "active")).2.trans (by decide)),
   (updateStats_summary _ _).1.trans
     ((updateStats_summary _ (js "all")).2.trans (by decide))⟩

/-! ## Commands -/

/-- C8: Add leaves the store as it is when the input is empty after trimming;
otherwise the store gets one new task at the front, with the trimmed input as
its text and not completed, and the tasks it held follow unchanged in their
order. -/
theorem handleAddTask_prepends (input : JSString) (now : Int) (iso : JSString)
    (tasks : List Task) :
    handleAddTask input now iso tasks =
      if trim input = [] then tasks
      else
        { id := js (toString now), text := trim input, completed := false, createdAt := iso }
          :: tasks := by
  unfold handleAddTask createTask
  simp only [trim_idem]

/-- The examples of C8: on a store of one task, `"  Buy milk  "` is stored as
`"Buy milk"` in front of it, and `"   "` adds nothing. -/
theorem handleAddTask_prepends_witness :
    handleAddTask (js "  Buy milk  ") 1704067260000 (js "2024-01-01T00:01:00.000Z")
        [⟨js "1704067200000", js "Call home", true, js "2024-01-01T00:00:00.000Z"⟩] =
      [⟨js "1704067260000", js "Buy milk", false, js "2024-01-01T00:01:00.000Z"⟩,
       ⟨js "1704067200000", js "Call home", true, js "2024-01-01T00:00:00.000Z"⟩] ∧
    handleAddTask (js "   ") 1704067260000 (js "2024-01-01T00:01:00.000Z")
        [⟨js "1704067200000", js "Call home", true, js "2024-01-01T00:00:00.000Z"⟩] =
      [⟨js "1704067200000", js "Call home", true, js "2024-01-01T00:00:00.000Z"⟩] :=
  ⟨(handleAddTask_prepends _ _ _ _).trans (by decide),
   (handleAddTask_prepends _ _ _ _).trans (by decide)⟩

/-- C9: toggling the same id twice gives the store back, whatever the id. -/
theorem toggleTaskCompleted_twice (id : JSString) (tasks : List Task) :
    toggleTaskCompleted id (toggleTaskCompleted id tasks) = tasks := by
  unfold toggleTaskCompleted
  rw [List.map_map]
  conv_rhs => rw [← List.map_id tasks]
  congr 1
  funext t
  simp only [Function.comp_apply, id_eq]
  by_cases h : t.id = id
  · cases t
    simp_all
  · simp [h]

/-- An instance of C9: one toggle flips the flag of the task, the second puts
it back. -/
theorem toggleTaskCompleted_twice_witness :
    toggleTaskCompleted (js "2")
        [⟨js "3", js "A", false, js "2024-01-01T00:02:00.000Z"⟩,
         ⟨js "2", js "B", true, js "2024-01-01T00:01:00.000Z"⟩] =
      [⟨js "3", js "A", false, js "2024-01-01T00:02:00.000Z"⟩,
       ⟨js "2", js "B", false, js "2024-01-01T00:01:00.000Z"⟩] ∧
    toggleTaskCompleted (js "2") (toggleTaskCompleted (js "2")
        [⟨js "3", js "A", false, js "2024-01-01T00:02:00.000Z"⟩,
         ⟨js "2", js "B", true, js "2024-01-01T00:01:00.000Z"⟩]) =
      [⟨js "3", js "A", false, js "2024-01-01T00:02:00.000Z"⟩,
       ⟨js "2", js "B", true, js "2024-01-01T00:01:00.000Z"⟩] :=
  ⟨by decide, toggleTaskCompleted_twice _ _⟩

theorem find?_id_eq_none_iff (id : JSString) (tasks : List Task) :
    tasks.find? (fun t => t.id = id) = none ↔ ∀ t ∈ tasks, t.id ≠ id := by
  simp [List.find?_eq_none]

/-- C10: Delete leaves the store as it is when no task has the id and when the
user declines; on confirmation the store is the one before without the tasks
of that id, the others unchanged and in their order. For a store of one task,
declining leaves that task and confirming leaves the empty store. -/
theorem deleteTask_removes (id : JSString) (ok : Bool) (tasks : List Task) :
    ((∀ t ∈ tasks, t.id ≠ id) → deleteTask id ok tasks = tasks) ∧
    deleteTask id false tasks = tasks ∧
    deleteTask id true tasks = tasks.filter (fun t => t.id ≠ id) ∧
    (∀ t : Task, deleteTask t.id false [t] = [t] ∧ deleteTask t.id true [t] = []) := by
  have hdecline : ∀ ts : List Task, deleteTask id false ts = ts := by
    intro ts
    unfold deleteTask
    split <;> simp
  have hconfirm : ∀ (i : JSString) (ts : List Task),
      deleteTask i true ts = ts.filter (fun t => t.id ≠ i) := by
    intro i ts
    unfold deleteTask
    split
    · rename_i h
      rw [find?_id_eq_none_iff] at h
      symm
      rw [List.filter_eq_self]
      intro t ht
      simpa using h t ht
    · simp
  refine ⟨?_, hdecline tasks, hconfirm id tasks, ?_⟩
  · intro h
    cases ok
    · exact hdecline tasks
    · rw [hconfirm, List.filter_eq_self]
      intro t ht
      simpa using h t ht
  · intro t
    refine ⟨?_, ?_⟩
    · unfold deleteTask
      split <;> simp
    · rw [hconfirm]
      simp

/-- An instance of C10: a store of two tasks, the id of the second, confirmed. -/
theorem deleteTask_removes_witness :
    deleteTask (js "2") true
        [⟨js "1", js "Buy milk", false, js "2024-01-01T00:00:00.000Z"⟩,
         ⟨js "2", js "Call home", true, js "2024-01-01T00:00:01.000Z"⟩] =
      [⟨js "1", js "Buy milk", false, js "2024-01-01T00:00:00.000Z"⟩] ∧
    deleteTask (js "3") true
        [⟨js "1", js "Buy milk", false, js "2024-01-01T00:00:00.000Z"⟩,
         ⟨js "2", js "Call home", true, js "2024-01-01T00:00:01.000Z"⟩] =
      [⟨js "1", js "Buy milk", false, js "2024-01-01T00:00:00.000Z"⟩,
       ⟨js "2", js "Call home", true, js "2024-01-01T00:00:01.000Z"⟩] :=
  ⟨((deleteTask_removes (js "2") true _).2.2.1).trans (by decide),
   (deleteTask_removes (js "3") true _).1 (by decide)⟩

/-! ## Invariants of the store -/

theorem toggleTaskCompleted_ids (id : JSString) (tasks : List Task) :
    (toggleTaskCompleted id tasks).map Task.id = tasks.map Task.id := by
  unfold toggleTaskCompleted
  rw [List.map_map]
  apply List.map_congr_left
  intro t _
  simp only [Function.comp_apply]
  split <;> rfl

theorem editTask_ids (id : JSString) (answer : Option JSString) (tasks : List Task) :
    (editTask id answer tasks).map Task.id = tasks.map Task.id := by
  unfold editTask
  split
  · rfl
  · split
    · rfl
    · simp only
      split
      · rfl
      · rw [List.map_map]
        apply List.map_congr_left
        intro t _
        simp only [Function.comp_apply]
        split <;> rfl

theorem deleteTask_sublist (id : JSString) (ok : Bool) (tasks : List Task) :
    List.Sublist (deleteTask id ok tasks) tasks := by
  unfold deleteTask
  split
  · exact List.Sublist.refl _
  · split
    · exact List.Sublist.refl _
    · exact List.filter_sublist _

theorem clearCompleted_sublist (ok : Bool) (tasks : List Task) :
    List.Sublist (clearCompleted ok tasks) tasks := by
  unfold clearCompleted
  simp only
  split
  · exact List.Sublist.refl _
  · split
    · exact List.filter_sublist _
    · exact List.Sublist.refl _

/-- C1, as the code has it: toggle, edit, delete and clear-completed keep the
ids of the store pairwise distinct, and so does add when the decimal text of
the clock reading is not the id of a task of the store (or the input is empty
after trimming). -/
theorem ids_stay_distinct (cmd : Command) (tasks : List Task)
    (hdistinct : (tasks.map Task.id).Nodup)
    (hfresh : ∀ input now iso, cmd = Command.add input now iso → trim input ≠ [] →
      js (toString now) ∉ tasks.map Task.id) :
    ((cmd.run tasks).map Task.id).Nodup := by
  cases cmd with
  | add input now iso =>
    simp only [Command.run, handleAddTask]
    split
    · exact hdistinct
    · rename_i hne
      rw [List.map_cons, List.nodup_cons]
      exact ⟨hfresh input now iso rfl hne, hdistinct⟩
  | toggle id =>
    simp only [Command.run, toggleTaskCompleted_ids]
    exact hdistinct
  | edit id answer =>
    simp only [Command.run, editTask_ids]
    exact hdistinct
  | delete id ok =>
    exact hdistinct.sublist ((deleteTask_sublist id ok tasks).map Task.id)
  | clearCompleted ok =>
    exact hdistinct.sublist ((clearCompleted_sublist ok tasks).map Task.id)

/-- An instance of `ids_stay_distinct`: a second task added one minute after
the first. -/
theorem ids_stay_distinct_witness :
    (([⟨js "1704067200000", js "Call home", true, js "2024-01-01T00:00:00.000Z"⟩] :
      List Task).map Task.id).Nodup ∧
    (((Command.add (js "  Buy milk  ") 1704067260000 (js "2024-01-01T00:01:00.000Z")).run
      [⟨js "1704067200000", js "Call home", true, js "2024-01-01T00:00:00.000Z"⟩]).map
        Task.id).Nodup :=
  ⟨by decide,
   ids_stay_distinct _ _ (by decide) (by
    intro input now iso h _
    cases h
    decide)⟩

/-- C1 fails as stated: two tasks added at the same reading of the clock have
the same id. -/
theorem add_same_clock_reading_repeats_id :
    (((Command.add (js "Call home") 1704067200000 (js "2024-01-01T00:00:00.000Z")).run
      []).map Task.id).Nodup ∧
    trim (js "Buy milk") ≠ [] ∧
    ¬ (((Command.add (js "Buy milk") 1704067200000 (js "2024-01-01T00:00:00.000Z")).run
        ((Command.add (js "Call home") 1704067200000
          (js "2024-01-01T00:00:00.000Z")).run [])).map Task.id).Nodup := by
  decide

/-- C4: when every task of the store has a text that is not empty and is its
own trim, so has every task of the store after any command, whatever the
input of add and the answer to the prompt of edit. -/
theorem text_stays_trimmed (cmd : Command) (tasks : List Task)
    (htext : ∀ t ∈ tasks, t.text ≠ [] ∧ trim t.text = t.text) :
    ∀ t ∈ cmd.run tasks, t.text ≠ [] ∧ trim t.text = t.text := by
  cases cmd with
  | add input now iso =>
    simp only [Command.run, handleAddTask]
    split
    · exact htext
    · rename_i hne
      intro t ht
      rcases List.mem_cons.mp ht with rfl | ht
      · simp only [createTask, trim_idem]
        exact ⟨hne, trivial⟩
      · exact htext t ht
  | toggle id =>
    simp only [Command.run, toggleTaskCompleted]
    intro t ht
    obtain ⟨u, hu, rfl⟩ := List.mem_map.mp ht
    split
    · exact htext u hu
    · exact htext u hu
  | edit id answer =>
    simp only [Command.run, editTask]
    split
    · exact htext
    · split
      · exact htext
      · split
        · exact htext
        · rename_i hne
          intro t ht
          obtain ⟨u, hu, rfl⟩ := List.mem_map.mp ht
          split
          · exact ⟨hne, trim_idem _⟩
          · exact htext u hu
  | delete id ok =>
    intro t ht
    exact htext t ((deleteTask_sublist id ok tasks).subset ht)
  | clearCompleted ok =>
    intro t ht
    exact htext t ((clearCompleted_sublist ok tasks).subset ht)

/-- An instance of `text_stays_trimmed`: an edit answered with white space
around the new text. -/
theorem text_stays_trimmed_witness :
    (∀ t ∈ ([⟨js "1704067200000", js "Call home", true, js "2024-01-01T00:00:00.000Z"⟩] :
      List Task), t.text ≠ [] ∧ trim t.text = t.text) ∧
    (∀ t ∈ (Command.edit (js "1704067200000") (some (js "  Call back \n"))).run
      [⟨js "1704067200000", js "Call home", true, js "2024-01-01T00:00:00.000Z"⟩],
      t.text ≠ [] ∧ trim t.text = t.text) :=
  ⟨by decide, text_stays_trimmed _ _ (by decide)⟩

/-! ## Persistence: reading back what was written -/

theorem CodeUnit.ofNat_val (c : CodeUnit) : CodeUnit.ofNat c.val = c := by
  apply Fin.ext
  simp only [CodeUnit.ofNat]
  exact Nat.mod_eq_of_lt c.isLt

theorem hexValue_hexDigit (n : Nat) (h : n < 16) : hexValue (hexDigit n) = some n := by
  interval_cases n <;> rfl

/-- Reading a code unit that is written as it is. -/
theorem parseStringBody_raw (c : CodeUnit) (rest acc : JSString)
    (h1 : c ≠ codeUnit '"') (h2 : c ≠ codeUnit '\\') (h3 : ¬ c.val < 0x20) :
    parseStringBody (c :: rest) Mode.normal acc =
      parseStringBody rest Mode.normal (c :: acc) := by
  simp [parseStringBody, h1, h2, h3]

/-- Reading the `\u` escape of a code unit gives the code unit back. -/
theorem parseStringBody_unicodeEscape (c : CodeUnit) (rest acc : JSString) :
    parseStringBody (unicodeEscape c ++ rest) Mode.normal acc =
      parseStringBody rest Mode.normal (c :: acc) := by
  have hc := c.isLt
  have hd3 := hexValue_hexDigit (c.val / 4096) (by omega)
  have hd2 := hexValue_hexDigit (c.val / 256 % 16) (by omega)
  have hd1 := hexValue_hexDigit (c.val / 16 % 16) (by omega)
  have hd0 := hexValue_hexDigit (c.val % 16) (by omega)
  have hv : ((c.val / 4096 * 16 + c.val / 256 % 16) * 16 + c.val / 16 % 16) * 16
      + c.val % 16 = c.val := by omega
  have hq : codeUnit '\\' ≠ codeUnit '"' := by decide
  have hu : ∀ x : Char, x ∈ ['"', '\\', '/', 'b', 'f', 'n', 'r', 't'] →
      codeUnit 'u' ≠ codeUnit x := by decide
  simp only [unicodeEscape, List.cons_append, List.nil_append, parseStringBody, if_neg hq,
    if_true, if_neg (hu '"' (by decide)), if_neg (hu '\\' (by decide)),
    if_neg (hu '/' (by decide)), if_neg (hu 'b' (by decide)), if_neg (hu 'f' (by decide)),
    if_neg (hu 'n' (by decide)), if_neg (hu 'r' (by decide)), if_neg (hu 't' (by decide)),
    hd3, hd2, hd1, hd0]
  simp [hv, CodeUnit.ofNat_val]

/-- Reading what `quoteUnit` writes for a code unit gives the code unit back. -/
theorem parseStringBody_quoteUnit (c : CodeUnit) (rest acc : JSString) :
    parseStringBody (quoteUnit c ++ rest) Mode.normal acc =
      parseStringBody rest Mode.normal (c :: acc) := by
  unfold quoteUnit
  split_ifs with h1 h2 h3 h4 h5 h6 h7 h8
  · subst h1; simp +decide [parseStringBody]
  · subst h2; simp +decide [parseStringBody]
  · subst h3; simp +decide [parseStringBody]
  · subst h4; simp +decide [parseStringBody]
  · subst h5; simp +decide [parseStringBody]
  · subst h6; simp +decide [parseStringBody]
  · subst h7; simp +decide [parseStringBody]
  · exact parseStringBody_unicodeEscape c rest acc
  · exact parseStringBody_raw c rest acc h1 h2 h8

theorem surrogate_raw (c : CodeUnit) (h : isLead c = true ∨ isTrail c = true) :
    c ≠ codeUnit '"' ∧ c ≠ codeUnit '\\' ∧ ¬ c.val < 0x20 := by
  have hq : (codeUnit '"').val = 34 := by decide
  have hb : (codeUnit '\\').val = 92 := by decide
  simp only [isLead, isTrail, Bool.and_eq_true, decide_eq_true_eq] at h
  refine ⟨?_, ?_, ?_⟩
  · intro hc
    rw [hc, hq] at h
    omega
  · intro hc
    rw [hc, hb] at h
    omega
  · omega

/-- Reading the text `QuoteJSONString` writes between the quotes, and the
closing quote, gives the string back, unpaired surrogates included. -/
theorem parseStringBody_quoteUnits (s rest acc : JSString) (paired : Bool)
    (hp : paired = true → startsWithTrail s = true) :
    parseStringBody (quoteUnits paired s ++ codeUnit '"' :: rest) Mode.normal acc =
      some (acc.reverse ++ s, rest) := by
  induction s generalizing acc paired with
  | nil => simp [quoteUnits, parseStringBody]
  | cons c s ih =>
    rw [quoteUnits]
    by_cases hpaired : paired = true
    · have htrail : isTrail c = true := by simpa [startsWithTrail] using hp hpaired
      obtain ⟨h1, h2, h3⟩ := surrogate_raw c (Or.inr htrail)
      rw [if_pos hpaired, List.cons_append, parseStringBody_raw c _ _ h1 h2 h3,
        ih _ false (by simp)]
      simp
    · rw [if_neg hpaired]
      by_cases hlead : isLead c = true
      · rw [if_pos hlead]
        by_cases hnext : startsWithTrail s = true
        · obtain ⟨h1, h2, h3⟩ := surrogate_raw c (Or.inl hlead)
          rw [if_pos hnext, List.cons_append, parseStringBody_raw c _ _ h1 h2 h3,
            ih _ true (fun _ => hnext)]
          simp
        · rw [if_neg hnext, List.append_assoc, parseStringBody_unicodeEscape,
            ih _ false (by simp)]
          simp
      · rw [if_neg hlead]
        by_cases htrail : isTrail c = true
        · rw [if_pos htrail, List.append_assoc, parseStringBody_unicodeEscape,
            ih _ false (by simp)]
          simp
        · rw [if_neg htrail, List.append_assoc, parseStringBody_quoteUnit,
            ih _ false (by simp)]
          simp

theorem parseStringBody_quote (s rest : JSString) :
    parseStringBody (quoteUnits false s ++ codeUnit '"' :: rest) Mode.normal [] =
      some (s, rest) := by
  rw [parseStringBody_quoteUnits _ _ _ _ (by simp)]
  rfl

theorem skipWs_cons (c : CodeUnit) (cs : JSString) (h : isJsonSpace c = false) :
    skipWs (c :: cs) = c :: cs := by
  simp [skipWs, List.dropWhile, h]

theorem quote_append (s rest : JSString) :
    quote s ++ rest = codeUnit '"' :: (quoteUnits false s ++ codeUnit '"' :: rest) := by
  simp [quote]

/-- A serialized string reads back, with any positive fuel. -/
theorem parseValue_str (k : Nat) (s rest : JSString) :
    parseValue (k + 1) (stringifyValue (JSON.str s) ++ rest) = some (JSON.str s, rest) := by
  rw [stringifyValue, quote_append, parseValue, skipWs_cons _ _ (by decide)]
  simp +decide [parseStringBody_quote]

/-- A serialized boolean reads back, with any positive fuel. -/
theorem parseValue_bool (k : Nat) (b : Bool) (rest : JSString) :
    parseValue (k + 1) (stringifyValue (JSON.bool b) ++ rest) = some (JSON.bool b, rest) := by
  have htrue : js "true" = codeUnit 't' :: js "rue" := by decide
  have hfalse : js "false" = codeUnit 'f' :: js "alse" := by decide
  have hword : ∀ w r : JSString, parseWord w (w ++ r) = some r := by
    intro w r
    simp [parseWord, List.isPrefixOf_iff_prefix]
  cases b
  · rw [stringifyValue, parseValue]
    simp only [Bool.false_eq_true, if_false, hfalse, List.cons_append]
    rw [skipWs_cons _ _ (by decide)]
    simp +decide [hword]
  · rw [stringifyValue, parseValue]
    simp only [if_true, htrue, List.cons_append]
    rw [skipWs_cons _ _ (by decide)]
    simp +decide [hword]

/-- One member of an object, followed by a comma. -/
theorem parseMembers_comma (k : Nat) (key : JSString) (v : JSON)
    (acc : List (JSString × JSON)) (rest : JSString)
    (hv : ∀ r, parseValue k (stringifyValue v ++ r) = some (v, r)) :
    parseMembers (k + 1) acc
        (quote key ++ codeUnit ':' :: (stringifyValue v ++ codeUnit ',' :: rest)) =
      parseMembers k (setMember key v acc) rest := by
  rw [quote_append, parseMembers, skipWs_cons _ _ (by decide)]
  simp only [if_true, parseStringBody_quote]
  rw [skipWs_cons _ _ (by decide)]
  simp only [if_true, hv]
  rw [skipWs_cons _ _ (by decide)]
  simp

/-- The last member of an object, followed by the closing brace. -/
theorem parseMembers_brace (k : Nat) (key : JSString) (v : JSON)
    (acc : List (JSString × JSON)) (rest : JSString)
    (hv : ∀ r, parseValue k (stringifyValue v ++ r) = some (v, r)) :
    parseMembers (k + 1) acc
        (quote key ++ codeUnit ':' :: (stringifyValue v ++ codeUnit '}' :: rest)) =
      some (JSON.obj (setMember key v acc), rest) := by
  rw [quote_append, parseMembers, skipWs_cons _ _ (by decide)]
  simp only [if_true, parseStringBody_quote]
  rw [skipWs_cons _ _ (by decide)]
  simp only [if_true, hv]
  rw [skipWs_cons _ _ (by decide)]
  simp +decide

theorem stringifyValue_task (t : Task) (rest : JSString) :
    stringifyValue t.toJSON ++ rest =
      codeUnit '{' :: (quote (js "id") ++ codeUnit ':' ::
        (stringifyValue (JSON.str t.id) ++ codeUnit ',' ::
        (quote (js "text") ++ codeUnit ':' ::
          (stringifyValue (JSON.str t.text) ++ codeUnit ',' ::
          (quote (js "completed") ++ codeUnit ':' ::
            (stringifyValue (JSON.bool t.completed) ++ codeUnit ',' ::
            (quote (js "createdAt") ++ codeUnit ':' ::
              (stringifyValue (JSON.str t.createdAt) ++ codeUnit '}' :: rest)))))))) := by
  simp only [Task.toJSON, stringifyValue, stringifyMembers, List.append_assoc,
    List.cons_append, List.nil_append]

/-- After the opening brace, a quote starts the members. -/
theorem parseValue_brace (k : Nat) (key rest : JSString) :
    parseValue (k + 1) (codeUnit '{' :: (quote key ++ rest)) =
      parseMembers k [] (quote key ++ rest) := by
  rw [parseValue, skipWs_cons _ _ (by decide)]
  simp only [if_true]
  rw [quote_append, skipWs_cons _ _ (by decide)]
  simp +decide

/-- The members of a task record as `JSON.parse` builds them: none of the four
keys is an array index, so each goes to the end. -/
theorem setMember_task (a b c d : JSON) :
    setMember (js "createdAt") d (setMember (js "completed") c
      (setMember (js "text") b (setMember (js "id") a []))) =
    [(js "id", a), (js "text", b), (js "completed", c), (js "createdAt", d)] := by
  have h1 : js "id" ≠ js "text" := by decide
  have h2 : js "id" ≠ js "completed" := by decide
  have h3 : js "id" ≠ js "createdAt" := by decide
  have h4 : js "text" ≠ js "completed" := by decide
  have h5 : js "text" ≠ js "createdAt" := by decide
  have h6 : js "completed" ≠ js "createdAt" := by decide
  have l1 : listedBefore (js "text") (js "id") = false := by decide
  have l2 : listedBefore (js "completed") (js "id") = false := by decide
  have l3 : listedBefore (js "completed") (js "text") = false := by decide
  have l4 : listedBefore (js "createdAt") (js "id") = false := by decide
  have l5 : listedBefore (js "createdAt") (js "text") = false := by decide
  have l6 : listedBefore (js "createdAt") (js "completed") = false := by decide
  simp only [setMember, if_neg h1, if_neg h2, if_neg h3, if_neg h4, if_neg h5, if_neg h6,
    l1, l2, l3, l4, l5, l6, Bool.false_eq_true, if_false]

/-- A serialized task record reads back, with fuel six or more. -/
theorem parseValue_task (k : Nat) (t : Task) (rest : JSString) :
    parseValue (k + 6) (stringifyValue t.toJSON ++ rest) = some (t.toJSON, rest) := by
  rw [stringifyValue_task, parseValue_brace,
    parseMembers_comma _ _ _ _ _ (parseValue_str (k + 3) t.id),
    parseMembers_comma _ _ _ _ _ (parseValue_str (k + 2) t.text),
    parseMembers_comma _ _ _ _ _ (parseValue_bool (k + 1) t.completed),
    parseMembers_brace _ _ _ _ _ (parseValue_str k t.createdAt), setMember_task]
  rfl

theorem stringifyElems_single (v : JSON) : stringifyElems [v] = stringifyValue v := by
  simp only [stringifyElems]

theorem stringifyElems_cons_cons (v w : JSON) (ws : List JSON) :
    stringifyElems (v :: w :: ws) =
      stringifyValue v ++ codeUnit ',' :: stringifyElems (w :: ws) := by
  rw [stringifyElems]

/-- The serialized task records of a store that is not empty read back as the
elements of an array, with fuel seven or more above the number of tasks that
follow the first. -/
theorem parseElems_tasks (k : Nat) (ts : List Task) (t : Task) (acc : List JSON)
    (rest : JSString) :
    parseElems (k + 7 + ts.length) acc
        (stringifyElems ((t :: ts).map Task.toJSON) ++ codeUnit ']' :: rest) =
      some (JSON.arr (acc ++ (t :: ts).map Task.toJSON), rest) := by
  induction ts generalizing t acc with
  | nil =>
    have hfuel : k + 7 + ([] : List Task).length = (k + 6) + 1 := rfl
    rw [hfuel, List.map_cons, List.map_nil, stringifyElems_single, parseElems, parseValue_task]
    simp only
    rw [skipWs_cons _ _ (by decide)]
    simp +decide
  | cons u us ih =>
    have hfuel : k + 7 + (u :: us).length = ((k + 1 + us.length) + 6) + 1 := by
      simp only [List.length_cons]; omega
    have hfuel2 : (k + 1 + us.length) + 6 = k + 7 + us.length := by omega
    rw [hfuel, List.map_cons, List.map_cons, stringifyElems_cons_cons, List.append_assoc,
      parseElems, parseValue_task]
    simp only [List.cons_append]
    rw [skipWs_cons _ _ (by decide)]
    simp only [if_true]
    rw [hfuel2, ← List.map_cons, ih]
    simp

theorem length_stringifyValue_task (t : Task) : 6 ≤ (stringifyValue t.toJSON).length := by
  have h := stringifyValue_task t []
  rw [List.append_nil] at h
  rw [h]
  simp only [List.length_cons, List.length_append]
  omega

theorem length_stringifyElems_tasks (t : Task) (ts : List Task) :
    6 + ts.length ≤ (stringifyElems ((t :: ts).map Task.toJSON)).length := by
  induction ts generalizing t with
  | nil =>
    rw [List.map_cons, List.map_nil, stringifyElems_single]
    exact length_stringifyValue_task t
  | cons u us ih =>
    rw [List.map_cons, List.map_cons, stringifyElems_cons_cons, List.length_append,
      List.length_cons, ← List.map_cons]
    have h1 := ih u
    have h2 := length_stringifyValue_task t
    simp only [List.length_cons]
    omega

theorem stringifyElems_tasks_head (t : Task) (ts : List Task) :
    ∃ tail, stringifyElems ((t :: ts).map Task.toJSON) = codeUnit '{' :: tail := by
  cases ts with
  | nil =>
    have h := stringifyValue_task t []
    rw [List.append_nil] at h
    rw [List.map_cons, List.map_nil, stringifyElems_single, h]
    exact ⟨_, rfl⟩
  | cons u us =>
    rw [List.map_cons, List.map_cons, stringifyElems_cons_cons, stringifyValue_task]
    exact ⟨_, rfl⟩

/-- What `saveTasks` writes parses to the value of the store. -/
theorem parse_saveTasks (tasks : List Task) :
    JSON.parse (saveTasks tasks) = some (storeValue tasks) := by
  cases tasks with
  | nil => rfl
  | cons t ts =>
    obtain ⟨tail, htail⟩ := stringifyElems_tasks_head t ts
    have hlen := length_stringifyElems_tasks t ts
    obtain ⟨k, hk⟩ : ∃ k, (stringifyElems ((t :: ts).map Task.toJSON)).length + 2
        = k + 7 + ts.length := ⟨(stringifyElems ((t :: ts).map Task.toJSON)).length + 2
          - (7 + ts.length), by omega⟩
    have hdata : saveTasks (t :: ts) =
        codeUnit '[' :: (stringifyElems ((t :: ts).map Task.toJSON) ++ [codeUnit ']']) := by
      simp only [saveTasks, JSON.stringify, storeValue, stringifyValue, List.cons_append]
    have hfuel : (saveTasks (t :: ts)).length = k + 7 + ts.length := by
      rw [hdata, ← hk]
      simp
    unfold JSON.parse
    rw [hfuel, hdata, parseValue, skipWs_cons _ _ (by decide)]
    simp +decide only [if_true, if_false]
    have hopen : skipWs (stringifyElems ((t :: ts).map Task.toJSON) ++ [codeUnit ']'])
        = codeUnit '{' :: (tail ++ [codeUnit ']']) := by
      rw [htail, List.cons_append, skipWs_cons _ _ (by decide)]
    rw [hopen]
    simp +decide only [if_false]
    rw [parseElems_tasks]
    simp [skipWs, storeValue]

theorem saveTasks_ne_empty (tasks : List Task) : saveTasks tasks ≠ [] := by
  simp [saveTasks, JSON.stringify, storeValue, stringifyValue]

theorem toJSON_injective (t u : Task) (h : t.toJSON = u.toJSON) : t = u := by
  cases t
  cases u
  simpa [Task.toJSON] using h

theorem storeValue_injective (ts us : List Task) (h : storeValue ts = storeValue us) :
    ts = us := by
  simp only [storeValue, JSON.arr.injEq] at h
  induction ts generalizing us with
  | nil =>
    cases us with
    | nil => rfl
    | cons u us => simp at h
  | cons t ts ih =>
    cases us with
    | nil => simp at h
    | cons u us =>
      simp only [List.map_cons, List.cons.injEq] at h
      rw [toJSON_injective t u h.1, ih us h.2]

/-- The part of C2 the code has: an absent slot, an empty text and a text that
does not parse leave the empty sequence. -/
theorem load_absent_or_unparseable :
    load none = storeValue [] ∧ load (some (js "")) = storeValue [] ∧
    ∀ text, JSON.parse text = none → load (some text) = storeValue [] := by
  refine ⟨rfl, rfl, ?_⟩
  intro text h
  unfold load
  simp only [h]
  split <;> rfl

/-- C2 fails on the code: a slot that holds JSON other than an array parses
without error, so the handler keeps the parsed value: for `42`, `null` and
`{}` the store after load is a number, `null` and an object, none of them a
sequence of task records. -/
theorem load_keeps_parsed_non_array :
    load (some (js "42")) = JSON.num (js "42") ∧
    load (some (js "null")) = JSON.null ∧
    load (some (js "\x7b\x7d")) = JSON.obj [] ∧
    (¬ ∃ tasks, load (some (js "42")) = storeValue tasks) ∧
    (¬ ∃ tasks, load (some (js "null")) = storeValue tasks) ∧
    (¬ ∃ tasks, load (some (js "\x7b\x7d")) = storeValue tasks) := by
  have h1 : load (some (js "42")) = JSON.num (js "42") := rfl
  have h2 : load (some (js "null")) = JSON.null := rfl
  have h3 : load (some (js "\x7b\x7d")) = JSON.obj [] := rfl
  refine ⟨h1, h2, h3, ?_, ?_, ?_⟩
  · rintro ⟨tasks, h⟩
    rw [h1] at h
    simp [storeValue] at h
  · rintro ⟨tasks, h⟩
    rw [h2] at h
    simp [storeValue] at h
  · rintro ⟨tasks, h⟩
    rw [h3] at h
    simp [storeValue] at h

/-- C3: loading the slot `saveTasks` wrote gives the saved sequence of task
records back, the empty one included, whatever code units the strings of the
records hold: the store after load is the value of the saved sequence and of
no other sequence. -/
theorem load_saveTasks (tasks : List Task) :
    load (some (saveTasks tasks)) = storeValue tasks ∧
    ∀ other, load (some (saveTasks tasks)) = storeValue other → other = tasks := by
  have h : load (some (saveTasks tasks)) = storeValue tasks := by
    unfold load
    simp only [parse_saveTasks, if_neg (saveTasks_ne_empty tasks)]
  exact ⟨h, fun other ho => storeValue_injective other tasks (ho.symm.trans h)⟩

/-- An instance of C3: a store of two tasks, one with a quote, a backslash, a
line break, a control character, a surrogate pair and a leading surrogate
without a partner in its text; the surrogate pair is written as it is and the
lone surrogate as `\ud83c`. -/
theorem load_saveTasks_witness :
    saveTasks
        [⟨js "1704067260000", js "say \"hi\" \\ \n\x01🎯" ++ [0xD83C],
            false, js "2024-01-01T00:01:00.000Z"⟩,
         ⟨js "1704067200000", js "Call home", true, js "2024-01-01T00:00:00.000Z"⟩] =
      js ("[\x7b\"id\":\"1704067260000\"," ++
        "\"text\":\"say \\\"hi\\\" \\\\ \\n\\u0001🎯\\ud83c\"," ++
        "\"completed\":false,\"createdAt\":\"2024-01-01T00:01:00.000Z\"\x7d," ++
        "\x7b\"id\":\"1704067200000\",\"text\":\"Call home\"," ++
        "\"completed\":true,\"createdAt\":\"2024-01-01T00:00:00.000Z\"\x7d]") ∧
    load (some (saveTasks
        [⟨js "1704067260000", js "say \"hi\" \\ \n\x01🎯" ++ [0xD83C],
            false, js "2024-01-01T00:01:00.000Z"⟩,
         ⟨js "1704067200000", js "Call home", true, js "2024-01-01T00:00:00.000Z"⟩])) =
      storeValue
        [⟨js "1704067260000", js "say \"hi\" \\ \n\x01🎯" ++ [0xD83C],
            false, js "2024-01-01T00:01:00.000Z"⟩,
         ⟨js "1704067200000", js "Call home", true, js "2024-01-01T00:00:00.000Z"⟩] :=
  ⟨by set_option maxRecDepth 100000 in decide, (load_saveTasks _).1⟩

end StarList
